import Mathlib

/-!
Verification of the OpenAI-to-NVIDIA-NIM proxy (three source variants:
the express server `server.js`, the Cloudflare `worker.js`, and the minimal
`/api/chat` server).  Strings are modelled as `List Char`; JavaScript's
`JSON.parse` and `JSON.stringify` are modelled as explicit function
parameters (they are external library calls); everything else is translated
directly from the source.
-/

namespace NimProxy

/-- Strings are modelled as lists of characters. -/
abbrev Str := List Char

/-- Coerce a Lean string literal to the character-list model. -/
def str (s : String) : Str := s.toList

/-- JavaScript `String.prototype.startsWith(pat)`: `pat` begins the string. -/
def strStartsWith : Str → Str → Bool
  | [], _ => true
  | _ :: _, [] => false
  | p :: ps, c :: cs => p == c && strStartsWith ps cs

/-- JavaScript `String.prototype.includes(pat)`: `pat` occurs somewhere. -/
def strIncludes (pat : Str) : Str → Bool
  | [] => pat.isEmpty
  | c :: cs => strStartsWith pat (c :: cs) || strIncludes pat cs

/-- JavaScript `String.prototype.toLowerCase()` (ASCII model). -/
def strLower (s : Str) : Str := s.map Char.toLower

/-- JavaScript truthiness of an optional string field
(`undefined`, and the empty string, are falsy). -/
def truthy : Option Str → Bool
  | none => false
  | some s => !s.isEmpty

/-- A single choice delta of an upstream stream event: the two fields the
proxy reads (`reasoning_content` and `content`), each possibly absent. -/
structure Delta where
  reasoning_content : Option Str
  content : Option Str
deriving DecidableEq

/-- The part of a parsed `data:` payload the proxy inspects:
`data.choices?.[0]?.delta`, present (and truthy) or not. -/
structure EventData where
  delta : Option Delta
deriving DecidableEq

/-- The `<think>\n` opener emitted by the reasoning merge. -/
def thinkOpenStr : Str := str "<think>\n"

/-- The `</think>\n\n` closer emitted by the reasoning merge. -/
def thinkCloseStr : Str := str "</think>\n\n"

/-- The SHOW_REASONING branch of the stream handler in `server.js`
(lines 135-155): builds `combinedContent` from the delta's
`reasoning_content` and `content`, updating the `reasoningStarted` flag,
and if the combined content is truthy replaces the delta's `content` and
deletes `reasoning_content`; otherwise the delta is forwarded unchanged.
Returns the outgoing delta and the new `reasoningStarted` flag. -/
def mergeShow (reasoningStarted : Bool) (d : Delta) : Delta × Bool :=
  let combined1 : Str :=
    if truthy d.reasoning_content && !reasoningStarted then
      thinkOpenStr ++ d.reasoning_content.getD []
    else if truthy d.reasoning_content then d.reasoning_content.getD []
    else []
  let started1 : Bool :=
    if truthy d.reasoning_content && !reasoningStarted then true
    else reasoningStarted
  let combined2 : Str :=
    if truthy d.content && started1 then
      combined1 ++ thinkCloseStr ++ d.content.getD []
    else if truthy d.content then combined1 ++ d.content.getD []
    else combined1
  let started2 : Bool :=
    if truthy d.content && started1 then false else started1
  if combined2.isEmpty then (d, started2)
  else ({ reasoning_content := none, content := some combined2 }, started2)

/-- The `else` (SHOW_REASONING disabled) branch of the stream handler in
`server.js` (lines 156-163): content passed through (empty string if
falsy), `reasoning_content` deleted. -/
def mergeHide (d : Delta) : Delta :=
  { reasoning_content := none
    content := some (if truthy d.content then d.content.getD [] else []) }

/-- Run the SHOW_REASONING merge over a sequence of deltas, returning the
final `reasoningStarted` flag and the outgoing deltas in order. -/
def runShow (st : Bool) : List Delta → Bool × List Delta
  | [] => (st, [])
  | d :: ds =>
    ((runShow (mergeShow st d).2 ds).1,
     (mergeShow st d).1 :: (runShow (mergeShow st d).2 ds).2)

/-- The outbound visible content carried by one outgoing delta. -/
def contentOf (d : Delta) : Str := d.content.getD []

/-- Concatenation of a list of strings. -/
def concatAll : List Str → Str
  | [] => []
  | s :: rest => s ++ concatAll rest

end NimProxy

namespace NimProxy

example : mergeShow false ⟨some (str "a"), none⟩ =
    (⟨none, some (str "<think>\na")⟩, true) := by decide

example : mergeShow true ⟨some (str "b"), none⟩ =
    (⟨none, some (str "b")⟩, true) := by decide

example : mergeShow true ⟨none, some (str "c")⟩ =
    (⟨none, some (str "</think>\n\nc")⟩, false) := by decide

example : runShow false
    [⟨some (str "a"), none⟩, ⟨some (str "b"), none⟩, ⟨none, some (str "c")⟩] =
    (false, [⟨none, some (str "<think>\na")⟩, ⟨none, some (str "b")⟩,
      ⟨none, some (str "</think>\n\nc")⟩]) := by decide

end NimProxy

namespace NimProxy

/-- JavaScript `buffer.split('\n')` on the character-list model: the list
of newline-separated segments (always nonempty; a trailing newline yields a
trailing empty segment, exactly as in JavaScript). -/
def splitNl : Str → List Str
  | [] => [[]]
  | c :: cs =>
    if c = '\n' then [] :: splitNl cs
    else (c :: (splitNl cs).headD []) :: (splitNl cs).tail

/-- Last element of a list, with a default. -/
def lastOr (l : List Str) (d : Str) : Str :=
  match l with
  | [] => d
  | [x] => x
  | _ :: y :: xs => lastOr (y :: xs) d

/-- One iteration of the `lines.forEach` body of the streaming branch of
`server.js` (lines 122-169), parameterised by the SHOW_REASONING toggle
and by the external `JSON.parse` (`jparse`, `none` meaning the parse threw)
and `JSON.stringify` (`jstr`) functions.  Returns the new
`reasoningStarted` flag and the chunks written to the response, in order:
non-`data:` lines produce nothing; a `data:` line containing `[DONE]` is
forwarded as-is plus a newline; an unparseable payload is forwarded as the
raw line plus a newline; a parsed event with a truthy `choices[0].delta`
has its delta merged and is re-serialised as a fresh `data:` event. -/
def processLine (showR : Bool) (jparse : Str → Option EventData)
    (jstr : EventData → Str) (st : Bool) (line : Str) : Bool × List Str :=
  if strStartsWith (str "data: ") line then
    if strIncludes (str "[DONE]") line then (st, [line ++ str "\n"])
    else
      match jparse (line.drop 6) with
      | none => (st, [line ++ str "\n"])
      | some ed =>
        match ed.delta with
        | some d =>
          if showR then
            ((mergeShow st d).2,
             [str "data: " ++ jstr { delta := some (mergeShow st d).1 } ++ str "\n\n"])
          else
            (st, [str "data: " ++ jstr { delta := some (mergeHide d) } ++ str "\n\n"])
        | none => (st, [str "data: " ++ jstr ed ++ str "\n\n"])
  else (st, [])

/-- The `lines.forEach(...)` loop: process a list of complete lines in
order, threading the `reasoningStarted` flag and concatenating outputs. -/
def processLines (showR : Bool) (jparse : Str → Option EventData)
    (jstr : EventData → Str) (st : Bool) : List Str → Bool × List Str
  | [] => (st, [])
  | l :: ls =>
    ((processLines showR jparse jstr (processLine showR jparse jstr st l).1 ls).1,
     (processLine showR jparse jstr st l).2 ++
       (processLines showR jparse jstr (processLine showR jparse jstr st l).1 ls).2)

/-- The per-connection mutable state of the stream handler: the
line-accumulation buffer and the `reasoningStarted` flag. -/
structure ChunkState where
  buffer : Str
  reasoningStarted : Bool

/-- The `response.data.on('data', chunk => ...)` handler of `server.js`
(lines 117-171): append the chunk to the buffer, split on newlines, keep
the last (incomplete) segment as the new buffer, and process the complete
lines. -/
def processChunk (showR : Bool) (jparse : Str → Option EventData)
    (jstr : EventData → Str) (cs : ChunkState) (chunk : Str) :
    ChunkState × List Str :=
  let lines := splitNl (cs.buffer ++ chunk)
  ({ buffer := lastOr lines []
     reasoningStarted :=
       (processLines showR jparse jstr cs.reasoningStarted lines.dropLast).1 },
   (processLines showR jparse jstr cs.reasoningStarted lines.dropLast).2)

/-- Deliver a sequence of chunks to the stream handler, concatenating all
written output. -/
def processChunks (showR : Bool) (jparse : Str → Option EventData)
    (jstr : EventData → Str) (cs : ChunkState) :
    List Str → ChunkState × List Str
  | [] => (cs, [])
  | c :: rest =>
    ((processChunks showR jparse jstr
        (processChunk showR jparse jstr cs c).1 rest).1,
     (processChunk showR jparse jstr cs c).2 ++
       (processChunks showR jparse jstr
         (processChunk showR jparse jstr cs c).1 rest).2)

end NimProxy

namespace NimProxy

example : splitNl (str "ab\ncd") = [str "ab", str "cd"] := by decide

example : splitNl (str "ab\n") = [str "ab", []] := by decide

example : splitNl [] = [[]] := by decide

example :
    processLine true (fun _ => none) (fun _ => []) false (str "data: [DONE]") =
      (false, [str "data: [DONE]\n"]) := by decide

example :
    processLine true (fun _ => none) (fun _ => []) false (str "event: x") =
      (false, []) := by decide

end NimProxy

namespace NimProxy

/-- First-match association-list lookup, modelling a JavaScript object
literal used as a map (all keys distinct in both tables). -/
def lookupStr : List (Str × Str) → Str → Option Str
  | [], _ => none
  | (k, v) :: rest, m => if k = m then some v else lookupStr rest m

/-- The MODEL_MAPPING table of `server.js` (lines 27-42). -/
def SERVER_MODEL_MAPPING : List (Str × Str) :=
  [ (str "3.2 deepseek", str "deepseek-ai/deepseek-v3.2"),
    (str "deepseek", str "deepseek-ai/deepseek-v3.2"),
    (str "gpt-4", str "deepseek-ai/deepseek-v3.2"),
    (str "gpt-3.5-turbo", str "nvidia/llama-3.1-nemotron-ultra-253b-v1"),
    (str "gpt-4-turbo", str "moonshotai/kimi-k2-thinking"),
    (str "gpt-4o", str "deepseek-ai/deepseek-v3.1-terminus"),
    (str "claude-3-opus", str "openai/gpt-oss-120b"),
    (str "claude-3-sonnet", str "openai/gpt-oss-20b"),
    (str "deepseek-ai/deepseek-v3.1-terminus", str "qwen/qwen3-next-80b-a3b-thinking") ]

/-- The MODEL_MAPPING table of `worker.js` (lines 5-13). -/
def WORKER_MODEL_MAPPING : List (Str × Str) :=
  [ (str "gpt-3.5-turbo", str "nvidia/llama-3.1-nemotron-ultra-253b-v1"),
    (str "gpt-4", str "qwen/qwen3-coder-480b-a35b-instruct"),
    (str "gpt-4-turbo", str "moonshotai/kimi-k2-instruct-0905"),
    (str "gpt-4o", str "deepseek-ai/deepseek-v3.1"),
    (str "claude-3-opus", str "openai/gpt-oss-120b"),
    (str "claude-3-sonnet", str "openai/gpt-oss-20b"),
    (str "gemini-pro", str "qwen/qwen3-next-80b-a3b-thinking") ]

/-- Model resolution of `server.js` (lines 75-82): exact lookup, else the
input itself, overridden to `deepseek-ai/deepseek-v3.2` when the lowercased
input contains `deepseek`. -/
def serverResolveModel (model : Str) : Str :=
  match lookupStr SERVER_MODEL_MAPPING model with
  | some m => m
  | none =>
    if strIncludes (str "deepseek") (strLower model) then
      str "deepseek-ai/deepseek-v3.2"
    else model

/-- Model resolution of `worker.js` (lines 89-99): exact lookup, else the
three-tier keyword ladder over the lowercased input. -/
def workerResolveModel (model : Str) : Str :=
  match lookupStr WORKER_MODEL_MAPPING model with
  | some m => m
  | none =>
    let modelLower := strLower model
    if strIncludes (str "gpt-4") modelLower ||
        strIncludes (str "claude-opus") modelLower ||
        strIncludes (str "405b") modelLower then
      str "meta/llama-3.1-405b-instruct"
    else if strIncludes (str "claude") modelLower ||
        strIncludes (str "gemini") modelLower ||
        strIncludes (str "70b") modelLower then
      str "meta/llama-3.1-70b-instruct"
    else str "meta/llama-3.1-8b-instruct"

/-- A fallback ladder as the spec words it: an ordered list of rules, each
a set of keywords and a target; the first rule one of whose keywords occurs
in the lowercased input wins. -/
def firstMatchRule (modelLower : Str) : List (List Str × Str) → Option Str
  | [] => none
  | (kws, target) :: rest =>
    if kws.any (fun kw => strIncludes kw modelLower) then some target
    else firstMatchRule modelLower rest

/-- Spec-side definition (for the refinement comparison of model
resolution): apply the ordered fallback rules to the lowercased input,
first matching rule wins, with a designated default when no rule
matches. -/
def specFallbackResolve (rules : List (List Str × Str)) (dflt : Str → Str)
    (model : Str) : Str :=
  match firstMatchRule (strLower model) rules with
  | some t => t
  | none => dflt model

/-- The worker's fallback ladder as configuration data. -/
def workerFallbackRules : List (List Str × Str) :=
  [ ([str "gpt-4", str "claude-opus", str "405b"], str "meta/llama-3.1-405b-instruct"),
    ([str "claude", str "gemini", str "70b"], str "meta/llama-3.1-70b-instruct") ]

/-- The server's fallback ladder as configuration data. -/
def serverFallbackRules : List (List Str × Str) :=
  [ ([str "deepseek"], str "deepseek-ai/deepseek-v3.2") ]

/-- A chat message, as far as the proxy inspects it. -/
structure ChatMsg where
  role : Str
  content : Str
deriving DecidableEq

/-- The body the proxy sends upstream, as far as the claims inspect it.
`thinking` records the provider-specific thinking-mode extension
(`chat_template_kwargs` / `extra_body`). -/
structure NimReq where
  model : Str
  messages : List ChatMsg
  temperature : ℚ
  max_tokens : ℚ
  stream : Bool
  thinking : Bool

/-- JavaScript `v || dflt` on an optional numeric field: `undefined` and
`0` are falsy and select the default. -/
def jsOrNum (v : Option ℚ) (dflt : ℚ) : ℚ :=
  match v with
  | none => dflt
  | some x => if x = 0 then dflt else x

/-- The `nimRequest` construction of `server.js` (lines 85-97):
`temperature: temperature || 0.6`, `max_tokens: max_tokens || 8192`,
`stream: stream || false`, thinking-mode extension injected
(ENABLE_THINKING_MODE is `true` there). -/
def serverNimRequest (model : Str) (messages : List ChatMsg)
    (temperature max_tokens : Option ℚ) (stream : Option Bool) : NimReq :=
  { model := serverResolveModel model
    messages := messages
    temperature := jsOrNum temperature 0.6
    max_tokens := jsOrNum max_tokens 8192
    stream := stream.getD false
    thinking := true }

/-- The `nimRequestBody` construction of `worker.js` (lines 101-108):
`typeof temperature !== 'undefined' ? temperature : 0.6`,
`typeof max_tokens !== 'undefined' ? max_tokens : 9024`,
`stream: !!stream`, thinking-mode extension injected. -/
def workerNimRequest (model : Str) (messages : List ChatMsg)
    (temperature max_tokens : Option ℚ) (stream : Option Bool) : NimReq :=
  { model := workerResolveModel model
    messages := messages
    temperature := temperature.getD 0.6
    max_tokens := max_tokens.getD 9024
    stream := stream.getD false
    thinking := true }

/-- JavaScript `a || b` on strings: the empty string is falsy. -/
def jsOrStr (a b : Str) : Str := if a.isEmpty then b else a

/-- The `model` field of the non-streaming response of `worker.js`
(line 151): `model || nimJson.model || nimModel`, where `nimJsonModel` is
the upstream response's own model field (absent modelled as `none`) and
`nimModel` the resolved upstream id. -/
def workerResponseModel (model : Str) (nimJsonModel : Option Str)
    (nimModel : Str) : Str :=
  jsOrStr model (jsOrStr (nimJsonModel.getD []) nimModel)

/-- The `model` field of the non-streaming response of `server.js`
(line 184): `model: model`, the caller's string echoed unchanged. -/
def serverResponseModel (model : Str) : Str := model

/-- A heap of JavaScript array objects holding chat messages; an array
reference is an index into the heap.  Used to model the mutation
behaviour of the `/api/chat` handler. -/
abbrev MsgHeap := List (List ChatMsg)

/-- Allocate a fresh array object with the given elements; returns the new
heap and the reference. -/
def heapAlloc (h : MsgHeap) (a : List ChatMsg) : MsgHeap × Nat :=
  (h ++ [a], h.length)

/-- Read the array object behind a reference. -/
def heapGet (h : MsgHeap) (r : Nat) : List ChatMsg := h.getD r []

/-- JavaScript `arr.unshift(m)`: mutate the array behind `r` in place,
prepending `m`. -/
def heapUnshift (h : MsgHeap) (r : Nat) (m : ChatMsg) : MsgHeap :=
  h.set r (m :: heapGet h r)

/-- The synthetic system message the `/api/chat` handler prepends when
thinking mode is on. -/
def sysThinkingMsg : ChatMsg :=
  { content := str "detailed thinking on", role := str "system" }

/-- The message handling of the `/api/chat` handler (`part_001`,
lines 14-20): the caller's `messages` array lives at reference 0;
`nimMessages` is a spread copy (`[...incomingMessages]`), and with
thinking mode on the system message is unshifted onto the copy.  Returns
the final heap and the reference to `nimMessages`. -/
def apiChatMessages (enableThinking : Bool) (incoming : List ChatMsg) :
    MsgHeap × Nat :=
  let h0 : MsgHeap := [incoming]
  let h1r := heapAlloc h0 (heapGet h0 0)
  let h2 := if enableThinking then heapUnshift h1r.1 h1r.2 sysThinkingMsg
            else h1r.1
  (h2, h1r.2)

end NimProxy

namespace NimProxy

example : serverResolveModel (str "gpt-4") = str "deepseek-ai/deepseek-v3.2" := by decide

example : serverResolveModel (str "my-DeepSeek-x") = str "deepseek-ai/deepseek-v3.2" := by decide

example : serverResolveModel (str "unknown-model") = str "unknown-model" := by decide

example : workerResolveModel (str "zzz") = str "meta/llama-3.1-8b-instruct" := by decide

example : workerResolveModel (str "claude-9") = str "meta/llama-3.1-70b-instruct" := by decide

example : (serverNimRequest [] [] (some 0) none none).temperature = 0.6 := by
  simp [serverNimRequest, jsOrNum]

example : (workerNimRequest [] [] (some 0) none none).temperature = 0 := by
  simp [workerNimRequest]

example : workerResponseModel [] none (str "x") = str "x" := by decide

example : apiChatMessages true [⟨str "user", str "hi"⟩] =
    ([[⟨str "user", str "hi"⟩], [sysThinkingMsg, ⟨str "user", str "hi"⟩]], 1) := by decide

end NimProxy

namespace NimProxy

/-- A segment of merged outbound content: the fixed block opener
`<think>\n`, the fixed block closer `</think>\n\n`, or verbatim text
coming from the upstream delta fields. -/
inductive Seg where
  | openTag : Seg
  | closeTag : Seg
  | txt : Str → Seg
deriving DecidableEq

/-- Render a segment list back to the literal character stream. -/
def render : List Seg → Str
  | [] => []
  | Seg.openTag :: r => thinkOpenStr ++ render r
  | Seg.closeTag :: r => thinkCloseStr ++ render r
  | Seg.txt s :: r => s ++ render r

/-- The open/close tag skeleton of a segment list (`true` = opener). -/
def tagsOf : List Seg → List Bool
  | [] => []
  | Seg.openTag :: r => true :: tagsOf r
  | Seg.closeTag :: r => false :: tagsOf r
  | Seg.txt _ :: r => tagsOf r

/-- Run a tag skeleton against a block-state: an opener is legal only when
no block is open, a closer only when one is; `none` marks an illegal
(nested or unmatched) sequence, `some b` the resulting open-state. -/
def alternRun : Bool → List Bool → Option Bool
  | o, [] => some o
  | o, b :: rest =>
    if b then (if o then none else alternRun true rest)
    else (if o then alternRun false rest else none)

/-- Segment-level view of `mergeShow`: the same branch structure, emitting
segments instead of a concatenated string. -/
def mergeSegs (reasoningStarted : Bool) (d : Delta) : List Seg × Bool :=
  let p1 : List Seg :=
    if truthy d.reasoning_content && !reasoningStarted then
      [Seg.openTag, Seg.txt (d.reasoning_content.getD [])]
    else if truthy d.reasoning_content then
      [Seg.txt (d.reasoning_content.getD [])]
    else []
  let started1 : Bool :=
    if truthy d.reasoning_content && !reasoningStarted then true
    else reasoningStarted
  if truthy d.content && started1 then
    (p1 ++ [Seg.closeTag, Seg.txt (d.content.getD [])], false)
  else if truthy d.content then
    (p1 ++ [Seg.txt (d.content.getD [])], started1)
  else (p1, started1)

/-- Segment-level view of `runShow`. -/
def runSegs (st : Bool) : List Delta → Bool × List Seg
  | [] => (st, [])
  | d :: ds =>
    ((runSegs (mergeSegs st d).2 ds).1,
     (mergeSegs st d).1 ++ (runSegs (mergeSegs st d).2 ds).2)

theorem render_append (s1 s2 : List Seg) :
    render (s1 ++ s2) = render s1 ++ render s2 := by
  induction s1 with
  | nil => simp [render]
  | cons h t ih => cases h <;> simp [render, ih]

theorem tagsOf_append (s1 s2 : List Seg) :
    tagsOf (s1 ++ s2) = tagsOf s1 ++ tagsOf s2 := by
  induction s1 with
  | nil => simp [tagsOf]
  | cons h t ih => cases h <;> simp [tagsOf, ih]

theorem alternRun_append (o : Bool) (t1 t2 : List Bool) :
    alternRun o (t1 ++ t2) =
      (alternRun o t1).bind (fun o2 => alternRun o2 t2) := by
  induction t1 generalizing o with
  | nil => simp [alternRun]
  | cons b rest ih =>
    cases b <;> cases o <;> simp [alternRun, ih]

theorem truthy_false_getD {o : Option Str} (h : truthy o = false) :
    o.getD [] = [] := by
  cases o with
  | none => rfl
  | some s =>
    simp [truthy] at h
    simp [h]

theorem truthy_true_ne_nil {o : Option Str} (h : truthy o = true) :
    o.getD [] ≠ [] := by
  cases o with
  | none => simp [truthy] at h
  | some s =>
    simp [truthy, List.isEmpty_iff] at h
    simpa using h

theorem isEmpty_append_left (x y : Str) (h : x ≠ []) :
    (x ++ y).isEmpty = false := by
  cases x with
  | nil => exact absurd rfl h
  | cons a l => rfl

theorem thinkOpenStr_ne_nil : thinkOpenStr ≠ [] := by decide

theorem thinkCloseStr_ne_nil : thinkCloseStr ≠ [] := by decide

theorem truthy_getD_isEmpty {o : Option Str} (h : truthy o = true) :
    (o.getD []).isEmpty = false := by
  cases o with
  | none => simp [truthy] at h
  | some s => simpa [truthy] using h

/-- The segment view renders to exactly the combined content `mergeShow`
emits, and tracks the same `reasoningStarted` flag. -/
theorem mergeSegs_render (st : Bool) (d : Delta) :
    render (mergeSegs st d).1 = contentOf (mergeShow st d).1 ∧
      (mergeSegs st d).2 = (mergeShow st d).2 := by
  cases hr : truthy d.reasoning_content <;> cases hc : truthy d.content <;>
    cases st <;>
      simp [mergeSegs, mergeShow, render, contentOf, render_append,
        truthy_false_getD, truthy_getD_isEmpty, truthy_true_ne_nil,
        isEmpty_append_left, thinkOpenStr_ne_nil, thinkCloseStr_ne_nil,
        hr, hc]

/-- One merge step emits a legal tag skeleton: starting from the current
block-state it neither nests nor closes an unopened block, and ends in the
step's resulting block-state. -/
theorem mergeSegs_altern (st : Bool) (d : Delta) :
    alternRun st (tagsOf (mergeSegs st d).1) = some (mergeSegs st d).2 := by
  by_cases hr : truthy d.reasoning_content <;>
    by_cases hc : truthy d.content <;>
      cases st <;>
        simp [mergeSegs, hr, hc, tagsOf, tagsOf_append, alternRun,
          alternRun_append]

end NimProxy

namespace NimProxy

/-- The run-level bridge: the segment view tracks the same final flag as
the source-level run, and renders to the concatenation of the emitted
outbound contents. -/
theorem runSegs_bridge (ds : List Delta) : ∀ st : Bool,
    (runSegs st ds).1 = (runShow st ds).1 ∧
      render (runSegs st ds).2 = concatAll ((runShow st ds).2.map contentOf) := by
  induction ds with
  | nil => intro st; simp [runSegs, runShow, render, concatAll]
  | cons d ds ih =>
    intro st
    obtain ⟨hrender, hflag⟩ := mergeSegs_render st d
    constructor
    · simp only [runSegs, runShow]
      rw [hflag]
      exact (ih _).1
    · simp only [runSegs, runShow, List.map_cons]
      rw [render_append, hrender, hflag]
      simp [concatAll, (ih _).2]

/-- The whole run emits a legal tag skeleton from any starting state. -/
theorem runSegs_altern (ds : List Delta) : ∀ st : Bool,
    alternRun st (tagsOf (runSegs st ds).2) = some (runSegs st ds).1 := by
  induction ds with
  | nil => intro st; simp [runSegs, tagsOf, alternRun]
  | cons d ds ih =>
    intro st
    simp only [runSegs, tagsOf_append, alternRun_append, mergeSegs_altern,
      Option.bind_some, Option.some_bind]
    exact ih _

end NimProxy

namespace NimProxy

theorem splitNl_ne_nil (s : Str) : splitNl s ≠ [] := by
  cases s with
  | nil => simp [splitNl]
  | cons c cs =>
    unfold splitNl
    split <;> simp

theorem lastOr_cons_ne (x : Str) (l : List Str) (d : Str) (h : l ≠ []) :
    lastOr (x :: l) d = lastOr l d := by
  cases l with
  | nil => exact absurd rfl h
  | cons y ys => rfl

theorem lastOr_append_ne (l1 l2 : List Str) (d : Str) (h : l2 ≠ []) :
    lastOr (l1 ++ l2) d = lastOr l2 d := by
  induction l1 with
  | nil => rfl
  | cons x xs ih =>
    have hne : xs ++ l2 ≠ [] := by
      cases xs <;> simp_all
    rw [List.cons_append, lastOr_cons_ne _ _ _ hne, ih]

theorem dropLast_cons_ne (x : Str) (l : List Str) (h : l ≠ []) :
    (x :: l).dropLast = x :: l.dropLast := by
  cases l with
  | nil => exact absurd rfl h
  | cons y ys => rfl

theorem dropLast_append_ne (l1 l2 : List Str) (h : l2 ≠ []) :
    (l1 ++ l2).dropLast = l1 ++ l2.dropLast := by
  induction l1 with
  | nil => rfl
  | cons x xs ih =>
    have hne : xs ++ l2 ≠ [] := by
      cases xs <;> simp_all
    rw [List.cons_append, dropLast_cons_ne _ _ hne, ih]
    simp

theorem headD_cons_tail (l : List Str) (h : l ≠ []) :
    l.headD [] :: l.tail = l := by
  cases l with
  | nil => exact absurd rfl h
  | cons x xs => rfl

theorem splitNl_cons_nl (cs : Str) : splitNl ('\n' :: cs) = [] :: splitNl cs := by
  simp [splitNl]

theorem splitNl_cons_other (c : Char) (cs : Str) (h : ¬c = '\n') :
    splitNl (c :: cs) = (c :: (splitNl cs).headD []) :: (splitNl cs).tail := by
  simp [splitNl, h]

/-- Splitting a concatenation: the complete lines of `a` are unaffected,
and the incomplete last segment of `a` is glued onto the front of `b`. -/
theorem splitNl_append (a b : Str) :
    splitNl (a ++ b) =
      (splitNl a).dropLast ++ splitNl (lastOr (splitNl a) [] ++ b) := by
  induction a with
  | nil => simp [splitNl, lastOr]
  | cons c cs ih =>
    by_cases hc : c = '\n'
    · subst hc
      have hne := splitNl_ne_nil cs
      rw [List.cons_append, splitNl_cons_nl, splitNl_cons_nl,
        dropLast_cons_ne _ _ hne, lastOr_cons_ne _ _ _ hne, ih]
      simp
    · have hne := splitNl_ne_nil cs
      rw [List.cons_append, splitNl_cons_other c _ hc, splitNl_cons_other c _ hc, ih]
      cases hsp : splitNl cs with
      | nil => exact absurd hsp hne
      | cons h t =>
        cases t with
        | nil =>
          simp only [List.dropLast_single, List.nil_append, List.headD_cons,
            List.tail_cons, lastOr]
          rw [List.cons_append, splitNl_cons_other c _ hc]
        | cons y ys =>
          have htne : (y :: ys : List Str) ≠ [] := by simp
          simp only [List.headD_cons, List.tail_cons]
          rw [dropLast_cons_ne _ _ htne, lastOr_cons_ne _ _ _ htne]
          simp only [List.cons_append, List.append_assoc]
          rw [lastOr_cons_ne _ _ _ htne, dropLast_cons_ne _ _ htne]
          simp

end NimProxy

namespace NimProxy

theorem processLines_append (showR : Bool) (jparse : Str → Option EventData)
    (jstr : EventData → Str) (l1 l2 : List Str) : ∀ st : Bool,
    processLines showR jparse jstr st (l1 ++ l2) =
      ((processLines showR jparse jstr
          (processLines showR jparse jstr st l1).1 l2).1,
       (processLines showR jparse jstr st l1).2 ++
         (processLines showR jparse jstr
           (processLines showR jparse jstr st l1).1 l2).2) := by
  induction l1 with
  | nil => intro st; simp [processLines]
  | cons l ls ih => intro st; simp [processLines, ih]

/-- Processing chunk `a` and then chunk `b` reaches the same handler state
and writes the same total output as processing the single chunk
`a ++ b`. -/
theorem processChunk_split (showR : Bool) (jparse : Str → Option EventData)
    (jstr : EventData → Str) (cs : ChunkState) (a b : Str) :
    (processChunk showR jparse jstr (processChunk showR jparse jstr cs a).1 b).1 =
        (processChunk showR jparse jstr cs (a ++ b)).1 ∧
      (processChunk showR jparse jstr cs a).2 ++
          (processChunk showR jparse jstr (processChunk showR jparse jstr cs a).1 b).2 =
        (processChunk showR jparse jstr cs (a ++ b)).2 := by
  have hassoc : cs.buffer ++ (a ++ b) = cs.buffer ++ a ++ b :=
    (List.append_assoc _ _ _).symm
  have hne2 := splitNl_ne_nil (lastOr (splitNl (cs.buffer ++ a)) [] ++ b)
  constructor <;>
    simp only [processChunk, hassoc, splitNl_append (cs.buffer ++ a) b,
      dropLast_append_ne _ _ hne2, lastOr_append_ne _ _ _ hne2,
      processLines_append]

theorem processChunks_pair (showR : Bool) (jparse : Str → Option EventData)
    (jstr : EventData → Str) (cs : ChunkState) (a b : Str) :
    processChunks showR jparse jstr cs [a, b] =
      processChunks showR jparse jstr cs [a ++ b] := by
  obtain ⟨h1, h2⟩ := processChunk_split showR jparse jstr cs a b
  simp only [processChunks, List.append_nil, Prod.mk.injEq]
  exact ⟨h1, h2⟩

end NimProxy

namespace NimProxy

/-- Whenever an event carries truthy visible content, the merge leaves the
reasoning block closed (the `reasoningStarted` flag is false afterwards). -/
theorem mergeShow_closes (st : Bool) (d : Delta) (h : truthy d.content = true) :
    (mergeShow st d).2 = false := by
  rw [← (mergeSegs_render st d).2]
  cases hr : truthy d.reasoning_content <;> cases st <;>
    simp [mergeSegs, h, hr]

/-- Claim C1 (counterexample): with show-reasoning enabled, an upstream
stream consisting of a single reasoning delta and then end-of-stream leaves
the merge state REASONING_OPEN and the outbound content contains the
`<think>` opener but no `</think>` closer: the reasoning block dangles past
the end of the stream, contradicting the claim's "never leaves a block
dangling past the end of the stream". -/
theorem claim_C1_counterexample :
    (runShow false [⟨some (str "a"), none⟩]).1 = true ∧
      strIncludes (str "<think>")
        (concatAll ((runShow false [⟨some (str "a"), none⟩]).2.map contentOf)) = true ∧
      strIncludes (str "</think>")
        (concatAll ((runShow false [⟨some (str "a"), none⟩]).2.map contentOf)) = false := by
  decide

/-- Claim C1 (amended): starting from NORMAL, the content merged into the
outbound channel is the rendering of a segment sequence whose open/close
tags are properly alternating from the closed state (so at most one
reasoning block is open at any time, blocks never nest, and a closer is
only ever emitted for an open block), the tag skeleton ends exactly in the
final merge state (so a block dangles past stream end precisely when the
stream ends with the flag still set), and whenever an event carries truthy
visible content the block is closed at that point. -/
theorem claim_C1_amended (ds : List Delta) :
    concatAll ((runShow false ds).2.map contentOf) = render (runSegs false ds).2 ∧
      alternRun false (tagsOf (runSegs false ds).2) = some (runShow false ds).1 ∧
      ∀ (st : Bool) (d : Delta), truthy d.content = true → (mergeShow st d).2 = false := by
  obtain ⟨hflag, hrender⟩ := runSegs_bridge ds false
  refine ⟨hrender.symm, ?_, fun st d h => mergeShow_closes st d h⟩
  rw [← hflag]
  exact runSegs_altern ds false

/-- Claim C1 (amended) at a concrete input: visible content closes the
block, and a concrete mixed stream renders with a legal tag skeleton. -/
theorem claim_C1_amended_witness :
    (mergeShow true ⟨none, some (str "c")⟩).2 = false :=
  (claim_C1_amended []).2.2 true ⟨none, some (str "c")⟩ (by decide)

/-- Claim C5: with show-reasoning enabled and starting in NORMAL, the three
deltas reasoning "a", reasoning "b", content "c" produce exactly the
outbound content deltas `<think>\na`, `b`, `</think>\n\nc` in that order,
and the merge state is NORMAL afterwards. -/
theorem claim_C5_reasoning_sequence :
    runShow false
        [⟨some (str "a"), none⟩, ⟨some (str "b"), none⟩, ⟨none, some (str "c")⟩] =
      (false,
        [⟨none, some (str "<think>\na")⟩, ⟨none, some (str "b")⟩,
          ⟨none, some (str "</think>\n\nc")⟩]) := by
  decide

/-- Claim C6: delivering the bytes of an event split at any position
across two successive chunks yields exactly the same outputs and the same
final handler state (accumulation buffer and merge flag) as delivering
them in one chunk, from every starting state and for every parse and
serialisation oracle; incomplete trailing bytes are simply carried in the
accumulation buffer. -/
theorem claim_C6_split_boundary (showR : Bool) (jparse : Str → Option EventData)
    (jstr : EventData → Str) (cs : ChunkState) (e : Str) (i : ℕ) :
    processChunks showR jparse jstr cs [e.take i, e.drop i] =
      processChunks showR jparse jstr cs [e] := by
  have h := processChunks_pair showR jparse jstr cs (e.take i) (e.drop i)
  rwa [List.take_append_drop] at h

end NimProxy

namespace NimProxy

/-- A concrete parse oracle recognising only the payload `null` (whose
parsed value has no `choices[0].delta`), used to instantiate theorems at
concrete inputs. -/
def jparseNull : Str → Option EventData := fun s =>
  if s = str "null" then some { delta := none } else none

/-- A concrete serialisation oracle matching `jparseNull`. -/
def jstrNull : EventData → Str := fun _ => str "null"

/-- Claim C2 (counterexample): the handler does not stop at the
terminator.  Processing the two complete lines `data: [DONE]` and
`data: null` in one chunk forwards the terminator and then still emits a
further transformed event for the following line, contradicting the
claim's "after it is forwarded no further transformed events are emitted
for that stream". -/
theorem claim_C2_counterexample :
    processLines true jparseNull jstrNull false
        [str "data: [DONE]", str "data: null"] =
      (false, [str "data: [DONE]\n", str "data: null\n\n"]) := by
  decide

/-- Claim C2 (amended): a `data:` line containing the `[DONE]` sentinel is
forwarded byte-identical (the line itself plus its terminating newline)
with the merge state untouched, but the handler keeps going: the remaining
lines of the stream are still processed exactly as if the terminator had
not occurred. -/
theorem claim_C2_amended (showR : Bool) (jparse : Str → Option EventData)
    (jstr : EventData → Str) (st : Bool) (line : Str) (rest : List Str)
    (h1 : strStartsWith (str "data: ") line = true)
    (h2 : strIncludes (str "[DONE]") line = true) :
    processLine showR jparse jstr st line = (st, [line ++ str "\n"]) ∧
      processLines showR jparse jstr st (line :: rest) =
        ((processLines showR jparse jstr st rest).1,
         (line ++ str "\n") :: (processLines showR jparse jstr st rest).2) := by
  have hpl : processLine showR jparse jstr st line = (st, [line ++ str "\n"]) := by
    simp [processLine, h1, h2]
  exact ⟨hpl, by simp [processLines, hpl]⟩

/-- Claim C2 (amended) at a concrete input: the literal terminator line is
forwarded unchanged with the state unchanged. -/
theorem claim_C2_amended_witness :
    processLine true jparseNull jstrNull false (str "data: [DONE]") =
      (false, [str "data: [DONE]\n"]) :=
  (claim_C2_amended true jparseNull jstrNull false (str "data: [DONE]") []
    (by decide) (by decide)).1

/-- Claim C7: a complete `data:` line whose payload fails to parse is
forwarded to the client as the original raw line (plus its terminating
newline), the merge state is unchanged, no error escapes (the handler is a
total function), and the remaining lines are processed exactly as
before. -/
theorem claim_C7_malformed_passthrough (showR : Bool)
    (jparse : Str → Option EventData) (jstr : EventData → Str) (st : Bool)
    (line : Str) (rest : List Str)
    (h1 : strStartsWith (str "data: ") line = true)
    (h2 : jparse (line.drop 6) = none) :
    processLine showR jparse jstr st line = (st, [line ++ str "\n"]) ∧
      processLines showR jparse jstr st (line :: rest) =
        ((processLines showR jparse jstr st rest).1,
         (line ++ str "\n") :: (processLines showR jparse jstr st rest).2) := by
  have hpl : processLine showR jparse jstr st line = (st, [line ++ str "\n"]) := by
    by_cases hd : strIncludes (str "[DONE]") line = true
    · simp [processLine, h1, hd]
    · simp [processLine, h1, hd, h2]
  exact ⟨hpl, by simp [processLines, hpl]⟩

/-- Claim C7 at a concrete input: a malformed payload is passed through
raw and processing continues. -/
theorem claim_C7_witness :
    processLine true (fun _ => none) jstrNull false (str "data: oops") =
      (false, [str "data: oops\n"]) :=
  (claim_C7_malformed_passthrough true (fun _ => none) jstrNull false
    (str "data: oops") [] (by decide) rfl).1

theorem strStartsWith_append {p l : Str} (h : strStartsWith p l = true)
    (x : Str) : strStartsWith p (l ++ x) = true := by
  induction p generalizing l with
  | nil => rfl
  | cons a ps ih =>
    cases l with
    | nil => simp [strStartsWith] at h
    | cons b ls =>
      simp only [strStartsWith, Bool.and_eq_true] at h
      simp only [List.cons_append, strStartsWith, Bool.and_eq_true]
      exact ⟨h.1, ih h.2⟩

theorem strStartsWith_self_append (p x : Str) :
    strStartsWith p (p ++ x) = true := by
  induction p with
  | nil => rfl
  | cons a ps ih => simp [strStartsWith, ih]

/-- Claim C10: a complete line that does not begin with `data: ` (blank
SSE separators, `event:` lines, comments) produces no output at all and
leaves the merge state unchanged; and every chunk the handler ever writes
begins with `data: `, so only `data: `-prefixed lines appear outbound. -/
theorem claim_C10_non_data_dropped (showR : Bool)
    (jparse : Str → Option EventData) (jstr : EventData → Str) (st : Bool)
    (line : Str)
    (h : strStartsWith (str "data: ") line = false) :
    processLine showR jparse jstr st line = (st, []) ∧
      ∀ (l : Str) (o : Str), o ∈ (processLine showR jparse jstr st l).2 →
        strStartsWith (str "data: ") o = true := by
  constructor
  · simp [processLine, h]
  · intro l o ho
    by_cases hg : strStartsWith (str "data: ") l = true
    · by_cases hd : strIncludes (str "[DONE]") l = true
      · simp only [processLine, hg, if_true, hd, List.mem_singleton] at ho
        subst ho
        exact strStartsWith_append hg _
      · cases hj : jparse (l.drop 6) with
        | none =>
          simp only [processLine, hg, if_true, hd, hj, Bool.false_eq_true,
            if_false, List.mem_singleton] at ho
          subst ho
          exact strStartsWith_append hg _
        | some ed =>
          cases hed : ed.delta with
          | some d =>
            cases showR <;>
              simp only [processLine, hg, if_true, hd, hj, hed,
                Bool.false_eq_true, if_false, List.mem_singleton] at ho <;>
              (subst ho; exact strStartsWith_self_append _ _)
          | none =>
            simp only [processLine, hg, if_true, hd, hj, hed,
              Bool.false_eq_true, if_false, List.mem_singleton] at ho
            subst ho
            exact strStartsWith_self_append _ _
    · simp [processLine, hg] at ho

/-- Claim C10 at concrete inputs: the blank separator line and an
`event:` line produce no output. -/
theorem claim_C10_witness :
    processLine true jparseNull jstrNull false [] = (false, []) ∧
      processLine true jparseNull jstrNull true (str "event: x") = (true, []) :=
  ⟨(claim_C10_non_data_dropped true jparseNull jstrNull false [] (by decide)).1,
   (claim_C10_non_data_dropped true jparseNull jstrNull true (str "event: x")
     (by decide)).1⟩

end NimProxy

namespace NimProxy

/-- Claim C3: model resolution is a total function in both deployments:
an exact key of the mapping table resolves to exactly the configured
upstream id, and a missed key resolves by the ordered fallback ladder
(first matching lowercased-substring rule wins, then the deployment's
designated default — a fixed smallest-tier model for the worker, the
caller's own string for the server). -/
theorem claim_C3_model_resolution :
    (∀ m v, lookupStr WORKER_MODEL_MAPPING m = some v → workerResolveModel m = v) ∧
      (∀ m, lookupStr WORKER_MODEL_MAPPING m = none →
        workerResolveModel m =
          specFallbackResolve workerFallbackRules
            (fun _ => str "meta/llama-3.1-8b-instruct") m) ∧
      (∀ m v, lookupStr SERVER_MODEL_MAPPING m = some v → serverResolveModel m = v) ∧
      (∀ m, lookupStr SERVER_MODEL_MAPPING m = none →
        serverResolveModel m =
          specFallbackResolve serverFallbackRules (fun mm => mm) m) := by
  refine ⟨?_, ?_, ?_, ?_⟩
  · intro m v h
    simp [workerResolveModel, h]
  · intro m h
    cases h1 : strIncludes (str "gpt-4") (strLower m) <;>
      cases h2 : strIncludes (str "claude-opus") (strLower m) <;>
        cases h3 : strIncludes (str "405b") (strLower m) <;>
          cases h4 : strIncludes (str "claude") (strLower m) <;>
            cases h5 : strIncludes (str "gemini") (strLower m) <;>
              cases h6 : strIncludes (str "70b") (strLower m) <;>
                simp [workerResolveModel, h, specFallbackResolve,
                  firstMatchRule, workerFallbackRules, h1, h2, h3, h4, h5, h6]
  · intro m v h
    simp [serverResolveModel, h]
  · intro m h
    simp only [serverResolveModel, h]
    simp only [specFallbackResolve, firstMatchRule, serverFallbackRules,
      List.any_cons, List.any_nil, Bool.or_false]
    cases hD : strIncludes (str "deepseek") (strLower m) <;> simp [hD]

/-- Claim C3 at concrete inputs: a mapped alias, an unmapped string with
no keyword (worker default), and an unmapped deepseek-keyword string
(server rule). -/
theorem claim_C3_witness :
    workerResolveModel (str "gpt-4o") = str "deepseek-ai/deepseek-v3.1" ∧
      workerResolveModel (str "zzz") = str "meta/llama-3.1-8b-instruct" ∧
      serverResolveModel (str "my-deepseek-7") = str "deepseek-ai/deepseek-v3.2" := by
  refine ⟨claim_C3_model_resolution.1 _ _ (by decide), ?_, ?_⟩
  · rw [claim_C3_model_resolution.2.1 (str "zzz") (by decide)]
    decide
  · rw [claim_C3_model_resolution.2.2.2 (str "my-deepseek-7") (by decide)]
    decide

/-- Claim C4 (counterexample): in the server deployment an explicit
caller temperature of 0 (and max_tokens of 0) is NOT passed through: the
`||` defaulting replaces it with 0.6 (respectively 8192), contradicting
the claim's "otherwise passes the caller's temperature through unchanged
(including temperature 0)". -/
theorem claim_C4_counterexample :
    (serverNimRequest (str "gpt-4o") [] (some 0) (some 0) none).temperature = 0.6 ∧
      (serverNimRequest (str "gpt-4o") [] (some 0) (some 0) none).max_tokens = 8192 ∧
      (0.6 : ℚ) ≠ 0 ∧ (8192 : ℚ) ≠ 0 := by
  refine ⟨?_, ?_, by norm_num, by norm_num⟩ <;> simp [serverNimRequest, jsOrNum]

/-- Claim C4 (amended): the worker deployment defaults temperature to 0.6
and max_tokens to 9024 exactly when absent and otherwise passes the
caller's value through unchanged, including 0; the server deployment
defaults to 0.6 and 8192 when absent but also replaces an explicit falsy
value 0 by the default, so only nonzero caller values pass through. -/
theorem claim_C4_amended :
    (∀ mdl msgs mt s, (workerNimRequest mdl msgs none mt s).temperature = 0.6) ∧
      (∀ mdl msgs t mt s, (workerNimRequest mdl msgs (some t) mt s).temperature = t) ∧
      (∀ mdl msgs t s, (workerNimRequest mdl msgs t none s).max_tokens = 9024) ∧
      (∀ mdl msgs t mt s, (workerNimRequest mdl msgs t (some mt) s).max_tokens = mt) ∧
      (∀ mdl msgs mt s, (serverNimRequest mdl msgs none mt s).temperature = 0.6) ∧
      (∀ mdl msgs t mt s, t ≠ 0 →
        (serverNimRequest mdl msgs (some t) mt s).temperature = t) ∧
      (∀ mdl msgs t s, (serverNimRequest mdl msgs t none s).max_tokens = 8192) ∧
      (∀ mdl msgs t mt s, mt ≠ 0 →
        (serverNimRequest mdl msgs t (some mt) s).max_tokens = mt) ∧
      (∀ mdl msgs mt s, (serverNimRequest mdl msgs (some 0) mt s).temperature = 0.6) ∧
      (∀ mdl msgs t s, (serverNimRequest mdl msgs t (some 0) s).max_tokens = 8192) := by
  refine ⟨?_, ?_, ?_, ?_, ?_, ?_, ?_, ?_, ?_, ?_⟩ <;>
    intros <;>
    simp_all [workerNimRequest, serverNimRequest, jsOrNum]

/-- Claim C4 (amended) at concrete inputs: the worker passes temperature 0
through; the server passes a nonzero temperature through. -/
theorem claim_C4_amended_witness :
    (workerNimRequest [] [] (some 0) none none).temperature = 0 ∧
      (serverNimRequest [] [] (some 2) none none).temperature = 2 :=
  ⟨claim_C4_amended.2.1 [] [] 0 none none,
   claim_C4_amended.2.2.2.2.2.1 [] [] 2 none none (by norm_num)⟩

/-- Claim C8 (counterexample): in the worker deployment the empty caller
model string is falsy, so `model || nimJson.model || nimModel` falls back
to the resolved upstream id instead of echoing the caller's (empty)
string, contradicting the claim's "for every caller model string
including the empty string". -/
theorem claim_C8_counterexample :
    workerResponseModel [] none (workerResolveModel []) =
        str "meta/llama-3.1-8b-instruct" ∧
      workerResponseModel [] none (workerResolveModel []) ≠ ([] : Str) := by
  decide

/-- Claim C8 (amended): the server deployment echoes the caller's model
string exactly, for every string including the empty one; the worker
deployment echoes it exactly whenever it is non-empty, and falls back to
the upstream-reported model or the resolved id when it is empty. -/
theorem claim_C8_amended :
    (∀ m : Str, serverResponseModel m = m) ∧
      (∀ (m : Str) (j : Option Str) (r : Str), m ≠ [] →
        workerResponseModel m j r = m) := by
  refine ⟨fun m => rfl, ?_⟩
  intro m j r h
  simp [workerResponseModel, jsOrStr, List.isEmpty_iff, h]

/-- Claim C8 (amended) at concrete inputs. -/
theorem claim_C8_amended_witness :
    serverResponseModel (str "gpt-4") = str "gpt-4" ∧
      workerResponseModel (str "gpt-4") none (str "x") = str "gpt-4" :=
  ⟨claim_C8_amended.1 _, claim_C8_amended.2 (str "gpt-4") none (str "x") (by decide)⟩

/-- Claim C9: the `/api/chat` handler copies the caller's messages array
before unshifting the synthetic thinking system message, so after
transcoding the caller's original array (heap slot 0) still holds exactly
the incoming messages, while `nimMessages` holds the (possibly prefixed)
copy. -/
theorem claim_C9_messages_unchanged (enableThinking : Bool)
    (incoming : List ChatMsg) :
    heapGet (apiChatMessages enableThinking incoming).1 0 = incoming ∧
      heapGet (apiChatMessages enableThinking incoming).1
          (apiChatMessages enableThinking incoming).2 =
        (if enableThinking then sysThinkingMsg :: incoming else incoming) := by
  cases enableThinking <;>
    simp [apiChatMessages, heapAlloc, heapGet, heapUnshift]

end NimProxy
